import Mathlib

/-!
Verification development for the bounded-concurrency fan-out/fan-in pipeline of
`week8/lecture_code/list_stable_modules/list-stable-modules.js` and the
sync-vs-async timing demo.  The JavaScript data values are shallowly embedded as
the inductive type `JVal`; JavaScript property access (which throws `TypeError`
on `undefined`/`null` receivers) is embedded in the `Except Unit` monad; the
regular expressions of the source are embedded as explicit scanning functions
with the same leftmost-match, greedy-backtracking semantics.
-/

namespace NodeMods

/-- Embedding of the JavaScript/JSON values manipulated by the script. -/
inductive JVal where
  | vundefined
  | vnull
  | vbool (b : Bool)
  | vnum (n : Int)
  | vstr (s : String)
  | varr (elems : List JVal)
  | vobj (fields : List (String × JVal))
deriving Repr

mutual

/-- JavaScript `String(v)` coercion (also `ToPropertyKey` for non-symbols):
`undefined` prints as "undefined", arrays join their elements with commas
(with `undefined`/`null` elements printing as empty), objects print as
"[object Object]". -/
def jsToString : JVal → String
  | .vundefined => "undefined"
  | .vnull => "null"
  | .vbool b => if b then "true" else "false"
  | .vnum n => toString n
  | .vstr s => s
  | .varr xs => String.intercalate "," (jsToStringElems xs)
  | .vobj _ => "[object Object]"

/-- Element-wise stringification used by `Array.prototype.join(",")`. -/
def jsToStringElems : List JVal → List String
  | [] => []
  | .vundefined :: xs => "" :: jsToStringElems xs
  | .vnull :: xs => "" :: jsToStringElems xs
  | x :: xs => jsToString x :: jsToStringElems xs

end

/-- JavaScript named property read `v.k`: throws `TypeError` on
`undefined`/`null`, looks the key up on objects (missing key gives
`undefined`), and gives `undefined` on the remaining primitives and arrays. -/
def getField : JVal → String → Except Unit JVal
  | .vundefined, _ => .error ()
  | .vnull, _ => .error ()
  | .vobj fs, k => .ok ((List.lookup k fs).getD .vundefined)
  | _, _ => .ok .vundefined

/-- JavaScript indexed read `v[i]`: throws on `undefined`/`null`, reads the
element on arrays (out of range gives `undefined`), looks the stringified
index up on objects, and gives `undefined` otherwise. -/
def getIndex : JVal → Nat → Except Unit JVal
  | .vundefined, _ => .error ()
  | .vnull, _ => .error ()
  | .varr xs, i => .ok (xs.getD i .vundefined)
  | .vobj fs, i => .ok ((List.lookup (toString i) fs).getD .vundefined)
  | _, _ => .ok .vundefined

/-- Embedding of underscore's `uu.has(v, k)`: own-property check, false on
anything that is not an object literal. -/
def jsHas (v : JVal) (k : String) : Bool :=
  match v with
  | .vobj fs => fs.any (fun p => p.1 == k)
  | _ => false

/-- Checks that the pattern (first argument) is a leading segment of the
character list (second argument). -/
def leadsWith : List Char → List Char → Bool
  | [], _ => true
  | _ :: _, [] => false
  | p :: ps, c :: cs => decide (p = c) && leadsWith ps cs

/-- Embedding of `/crypto/.test(s)`: the literal pattern occurs somewhere in
the subject string. -/
def occursIn (pat : List Char) : List Char → Bool
  | [] => leadsWith pat []
  | s@(_ :: t) => leadsWith pat s || occursIn pat t

/-- JavaScript `\w`: ASCII letters, digits and underscore. -/
def wordChar (c : Char) : Bool := c.isAlphanum || decide (c = '_')

/-- Greedy backtracking for the `(\w+)` group of `name_regex`
(`/doc\/api\/(\w+).markdown/`): try capture lengths from `n` down to 1; a
candidate succeeds when the capture is all word characters and is followed by
one non-line-terminator character (the unescaped dot) and the literal
`markdown`. -/
def nameTryLen : Nat → List Char → Option (List Char)
  | 0, _ => none
  | n + 1, cs =>
    let cap := cs.take (n + 1)
    let rest := cs.drop (n + 1)
    if cap.all wordChar then
      match rest with
      | c :: r =>
        if decide (c ≠ '\n') && decide (c ≠ '\r') && leadsWith "markdown".toList r then
          some cap
        else nameTryLen n cs
      | [] => nameTryLen n cs
    else nameTryLen n cs

/-- Leftmost-match scan for `name_regex`: at each start position require the
literal `doc/api/`, then the greedy word-character group followed by any
character and `markdown`; on failure restart one character later. -/
def execNameCore : List Char → Option (List Char)
  | [] => none
  | s@(_ :: t) =>
    if leadsWith "doc/api/".toList s then
      let after := s.drop 8
      match nameTryLen (after.takeWhile wordChar).length after with
      | some cap => some cap
      | none => execNameCore t
    else execNameCore t

/-- Embedding of `name_regex.exec(s)[1]` as an optional capture: `none` models
`exec` returning `null` (so that the subsequent `[1]` throws). -/
def execName (s : List Char) : Option String :=
  (execNameCore s).map (fun cs => String.mk cs)

/-- Leftmost-match scan for `stability_regex` (`/Stability: (\d)/`) combined
with `parseInt(-, 10)` of the single captured digit. -/
def execStabilityDigit : List Char → Option Nat
  | [] => none
  | s@(_ :: t) =>
    if leadsWith "Stability: ".toList s then
      match s.drop 11 with
      | c :: _ => if c.isDigit then some (c.toNat - '0'.toNat) else execStabilityDigit t
      | [] => execStabilityDigit t
    else execStabilityDigit t

/-- Embedding of the intermediate record `{"modname": ..., "stability": ...}`
returned by `mod_data2modname_stability`.  The stability is kept as a raw
`JVal`; the source's `undefined` (`JVal.vundefined`) is the "unknown" sentinel. -/
structure ModnameStability where
  modname : String
  stability : JVal
deriving Repr

/-- Embedding of the `try { ... }` block of `mod_data2modname_stability`
(lines 114-133 of list-stable-modules.js): the significance-ranked resolution
of the stability value.  An `Except.error` models a thrown exception inside
the `try` block (caught by the `catch` in the enclosing function). -/
def stability_try (mod_data : JVal) (modname : String) : Except Unit JVal :=
  if occursIn "crypto".toList modname.toList then do
    let ms ← getField mod_data "modules"
    let m0 ← getIndex ms 0
    let desc ← getField m0 "desc"
    match execStabilityDigit (jsToString desc).toList with
    | some d => Except.ok (JVal.vnum (Int.ofNat d))
    | none => Except.error ()
  else if jsHas mod_data "stability" then
    getField mod_data "stability"
  else if jsHas mod_data "miscs" then do
    let ms ← getField mod_data "miscs"
    let m0 ← getIndex ms 0
    let mm ← getField m0 "miscs"
    let m1 ← getIndex mm 1
    getField m1 "stability"
  else if jsHas mod_data "modules" then do
    let ms ← getField mod_data "modules"
    let m0 ← getIndex ms 0
    getField m0 "stability"
  else if jsHas mod_data "globals" then do
    let gs ← getField mod_data "globals"
    let g0 ← getIndex gs 0
    getField g0 "stability"
  else Except.ok JVal.vundefined

/-- Embedding of `mod_data2modname_stability` (lines 108-138).  The module
name extraction `name_regex.exec(mod_data.source)[1]` happens before the
`try` block, so a failure there (`Except.error`) is an uncaught exception;
a failure inside `stability_try` is caught and becomes the `undefined`
sentinel. -/
def mod_data2modname_stability (mod_data : JVal) : Except Unit ModnameStability :=
  match getField mod_data "source" with
  | .error e => .error e
  | .ok src =>
    match execName (jsToString src).toList with
    | none => .error ()
    | some modname =>
      let stability :=
        match stability_try mod_data modname with
        | .ok v => v
        | .error _ => JVal.vundefined
      .ok ⟨modname, stability⟩

/-- Embedding of the JavaScript object `stability_to_names`: an
insertion-ordered association list from (stringified) stability keys to the
lists of module names. -/
abbrev StabMap := List (String × List String)

/-- Lookup of one group in the grouped result (empty list when the key is
absent). -/
def lookupGroup : StabMap → String → List String
  | [], _ => []
  | (k', v) :: rest, k => if k' = k then v else lookupGroup rest k

/-- One iteration of the grouping `for` loop (lines 145-153): push the name
onto the existing group when `uu.has` finds the key, otherwise create a new
single-element group. -/
def insertName : StabMap → String → String → StabMap
  | [], k, nm => [(k, [nm])]
  | (k', v) :: rest, k, nm =>
    if k' = k then (k', v ++ [nm]) :: rest
    else (k', v) :: insertName rest k nm

/-- The grouping `for` loop of `mod_datas2stability_to_names` (lines 144-153),
applied to the already-transformed records: records are processed in input
order and keyed by the JavaScript property key of their stability value. -/
def group_modname_stabilities (l : List ModnameStability) : StabMap :=
  l.foldl (fun m ms => insertName m (jsToString ms.stability) ms.modname) []

/-- Embedding of `mod_datas2stability_to_names` (lines 140-155): map the
transformer over the fetched records (an uncaught transformer exception aborts
the whole invocation, modelled by `Except.error`), then run the grouping
loop. -/
def mod_datas2stability_to_names (mod_datas : List JVal) : Except Unit StabMap :=
  match mod_datas.mapM mod_data2modname_stability with
  | .ok mss => .ok (group_modname_stabilities mss)
  | .error e => .error e

/-- Effect of the `request` callback of `mod_url2mod_data` on its task's
result slot: the callback `cb` is either never invoked, invoked once with a
success value, or the callback body throws (from `JSON.parse`). -/
inductive CbEffect where
  | notInvoked
  | threw
  | invoked (mod_data : JVal)
deriving Repr

/-- Embedding of `err_resp_body2mod_data` (lines 176-181), the callback handed
to `request` inside `mod_url2mod_data`.  The response body is represented by
the outcome `JSON.parse` has on it (`Except.ok` for valid JSON, `Except.error`
for a parse exception).  The source only acts when there is no transport error
and the status code is exactly 200; in every other case it simply returns
without invoking `cb`. -/
def err_resp_body2mod_data (err : Option String) (statusCode : Int)
    (body : Except Unit JVal) : CbEffect :=
  if err = none ∧ statusCode = 200 then
    match body with
    | .ok mod_data => .invoked mod_data
    | .error _ => .threw
  else .notInvoked

/-- Modelled from the spec: configuration error of the BoundedExecutor
(section 7 of the spec); the bounding implementation itself
(`async.mapLimit`) is an external library and is not part of the source
tree. -/
inductive ExecError where
  | invalidConfig
deriving Repr

/-- Modelled from the spec: construction-time validation and deterministic
result of the BoundedExecutor (spec sections 4.3 and 7): a concurrency
ceiling of 0 is rejected as `InvalidConfig` before any task is dispatched;
otherwise the executor produces the results buffered by submission index. -/
def runBounded (C : Nat) (f : α → β) (tasks : List α) : Except ExecError (List β) :=
  if C = 0 then Except.error ExecError.invalidConfig
  else Except.ok (tasks.map f)

/-- Modelled from the spec: the mutable state of the BoundedExecutor (spec
section 4.3) — a FIFO pending queue of task indices, the set of in-flight
task indices, and the pre-sized results buffer indexed by submission
position. -/
structure ExecState (β : Type) where
  pending : List Nat
  inflight : List Nat
  results : List (Option β)

/-- Modelled from the spec: the initial executor state for a task list — all
indices pending in submission order, nothing in flight, all result slots
empty. -/
def initExecState (tasks : List α) : ExecState β :=
  ⟨List.range tasks.length, [], List.replicate tasks.length none⟩

/-- Modelled from the spec: one scheduling step of the BoundedExecutor.
`dispatch` starts the next pending task when a concurrency slot is free;
`complete` non-deterministically finishes any in-flight task, recording its
result at its own submission index.  Completion order is unconstrained. -/
inductive ExecStep (C : Nat) (f : α → β) (tasks : List α) :
    ExecState β → ExecState β → Prop where
  | dispatch (i : Nat) (rest : List Nat) (s : ExecState β)
      (hp : s.pending = i :: rest) (hc : s.inflight.length < C) :
      ExecStep C f tasks s ⟨rest, s.inflight ++ [i], s.results⟩
  | complete (i : Nat) (t : α) (s : ExecState β)
      (hi : i ∈ s.inflight) (ht : tasks[i]? = some t) :
      ExecStep C f tasks s
        ⟨s.pending, s.inflight.filter (fun j => j != i), s.results.set i (some (f t))⟩

/-- Modelled from the spec: the states the BoundedExecutor can reach by any
interleaving of dispatches and completions. -/
def ExecReach (C : Nat) (f : α → β) (tasks : List α) :
    ExecState β → ExecState β → Prop :=
  Relation.ReflTransGen (ExecStep C f tasks)

/-- Invariant of the executor: the results buffer keeps its size, and every
slot is either already filled with its own task's result or still empty with
its index pending or in flight. -/
def ExecInv (f : α → β) (tasks : List α) (s : ExecState β) : Prop :=
  s.results.length = tasks.length ∧
  ∀ i, i < tasks.length →
    s.results[i]? = some (tasks[i]?.map f) ∨
    (s.results[i]? = some none ∧ (i ∈ s.pending ∨ i ∈ s.inflight))

/-- Sum of a delay list (total sequential wall time). -/
def sumD : List Nat → Nat
  | [] => 0
  | d :: ds => d + sumD ds

/-- Maximum of a delay list (total fully-parallel wall time); 0 when empty. -/
def listMax : List Nat → Nat
  | [] => 0
  | x :: xs => Nat.max x (listMax xs)

/-- Minimum of a nonempty list of slot times (0 for the empty list, which the
scheduler never queries). -/
def listMin : List Nat → Nat
  | [] => 0
  | x :: xs => xs.foldl Nat.min x

/-- Replaces the first occurrence of `m` in the list with `v`. -/
def replaceFirst : List Nat → Nat → Nat → List Nat
  | [], _, _ => []
  | x :: xs, m, v => if x = m then v :: xs else x :: replaceFirst xs m v

/-- Number of zero entries of a slot list (free slots never yet used). -/
def countZero : List Nat → Nat
  | [] => 0
  | x :: xs => (if x = 0 then 1 else 0) + countZero xs

/-- Modelled from the spec: greedy FIFO dispatch of one task with the given
delay — the task starts on the slot that frees earliest and occupies it for
its own delay. -/
def stepSlot (slots : List Nat) (d : Nat) : List Nat :=
  let m := listMin slots
  replaceFirst slots m (m + d)

/-- Modelled from the spec: total wall time of the slot-pool algorithm of the
BoundedExecutor (spec section 4.3) on a list of per-task delays with `C`
slots, all tasks available at time 0.  With `C = 1` this is the synchronous
example of the timing demo (sequential sleeps); with `C ≥ N` it is the
asynchronous example (`async.map`, all timers started at once). -/
def makespan (C : Nat) (delays : List Nat) : Nat :=
  listMax (delays.foldl stepSlot (List.replicate C 0))

/-- Total number of module names stored in a grouped result. -/
def totalNames : StabMap → Nat
  | [] => 0
  | (_, v) :: rest => v.length + totalNames rest

/-- Number of occurrences of a string in a list of strings. -/
def countOcc (s : String) : List String → Nat
  | [] => 0
  | x :: xs => (if x = s then 1 else 0) + countOcc s xs

/-- Number of occurrences of a module name across all groups of a grouped
result. -/
def countNames (s : String) : StabMap → Nat
  | [] => 0
  | (_, v) :: rest => countOcc s v + countNames s rest

/-! Helper lemmas about the grouping loop. -/

/-- Inserting a name at key `k` appends it at the end of the group of `k`. -/
theorem lookupGroup_insertName_same (m : StabMap) (k nm : String) :
    lookupGroup (insertName m k nm) k = lookupGroup m k ++ [nm] := by
  induction m with
  | nil => simp [insertName, lookupGroup]
  | cons p rest ih =>
    obtain ⟨k', v⟩ := p
    by_cases h : k' = k
    · simp [insertName, lookupGroup, h]
    · simp [insertName, lookupGroup, h, ih]

/-- Inserting a name at key `k` leaves every other group unchanged. -/
theorem lookupGroup_insertName_other (m : StabMap) (k k' nm : String) (h : k' ≠ k) :
    lookupGroup (insertName m k nm) k' = lookupGroup m k' := by
  have h' : k ≠ k' := Ne.symm h
  induction m with
  | nil => simp [insertName, lookupGroup, h']
  | cons p rest ih =>
    obtain ⟨k₀, v⟩ := p
    by_cases h0 : k₀ = k
    · simp [insertName, lookupGroup, h0, h']
    · simp [insertName, lookupGroup, h0, ih]

/-- Running the grouping loop from any accumulator extends each group by the
names of the matching records, in input order. -/
theorem lookupGroup_foldl (l : List ModnameStability) (m : StabMap) (k : String) :
    lookupGroup (l.foldl (fun m ms => insertName m (jsToString ms.stability) ms.modname) m) k =
      lookupGroup m k ++
        (l.filter (fun ms => jsToString ms.stability == k)).map (fun ms => ms.modname) := by
  induction l generalizing m with
  | nil => simp
  | cons ms l ih =>
    simp only [List.foldl_cons, ih]
    by_cases h : jsToString ms.stability = k
    · rw [List.filter_cons_of_pos (by simpa using h), h, lookupGroup_insertName_same]
      simp
    · rw [List.filter_cons_of_neg (by simpa using h),
        lookupGroup_insertName_other _ _ _ _ (Ne.symm h)]

/-- Full characterisation of the grouping loop: the group of key `k` is the
ordered list of names of the input records whose stability stringifies to
`k`. -/
theorem lookupGroup_group (l : List ModnameStability) (k : String) :
    lookupGroup (group_modname_stabilities l) k =
      (l.filter (fun ms => jsToString ms.stability == k)).map (fun ms => ms.modname) := by
  have h := lookupGroup_foldl l [] k
  simpa [group_modname_stabilities, lookupGroup] using h

/-- Occurrence counts add over list concatenation. -/
theorem countOcc_append (s : String) (a b : List String) :
    countOcc s (a ++ b) = countOcc s a + countOcc s b := by
  induction a with
  | nil => simp [countOcc]
  | cons x xs ih => simp [countOcc, ih]; omega

/-- One loop iteration grows the total name count by exactly one. -/
theorem totalNames_insertName (m : StabMap) (k nm : String) :
    totalNames (insertName m k nm) = totalNames m + 1 := by
  induction m with
  | nil => simp [insertName, totalNames]
  | cons p rest ih =>
    obtain ⟨k', v⟩ := p
    by_cases h : k' = k
    · simp [insertName, totalNames, h]; omega
    · simp [insertName, totalNames, h, ih]; omega

/-- One loop iteration adds exactly one occurrence of the inserted name. -/
theorem countNames_insertName (s : String) (m : StabMap) (k nm : String) :
    countNames s (insertName m k nm) = countNames s m + (if nm = s then 1 else 0) := by
  induction m with
  | nil => simp [insertName, countNames, countOcc]
  | cons p rest ih =>
    obtain ⟨k', v⟩ := p
    by_cases h : k' = k
    · simp [insertName, countNames, h, countOcc_append, countOcc]; omega
    · simp [insertName, countNames, h, ih]; omega

/-- The grouping loop adds one stored name per processed record. -/
theorem totalNames_foldl (l : List ModnameStability) (m : StabMap) :
    totalNames (l.foldl (fun m ms => insertName m (jsToString ms.stability) ms.modname) m) =
      totalNames m + l.length := by
  induction l generalizing m with
  | nil => simp
  | cons ms l ih => simp [ih, totalNames_insertName]; omega

/-- The grouping loop preserves the multiplicity of every module name. -/
theorem countNames_foldl (s : String) (l : List ModnameStability) (m : StabMap) :
    countNames s (l.foldl (fun m ms => insertName m (jsToString ms.stability) ms.modname) m) =
      countNames s m + countOcc s (l.map (fun ms => ms.modname)) := by
  induction l generalizing m with
  | nil => simp [countOcc]
  | cons ms l ih => simp [ih, countNames_insertName, countOcc]; omega

/-! Helper lemmas about the executor model. -/

/-- The executor invariant holds initially. -/
theorem execInv_init (f : α → β) (tasks : List α) :
    ExecInv f tasks (initExecState tasks (β := β)) := by
  constructor
  · simp [initExecState]
  · intro i hi
    right
    constructor
    · simp [initExecState, List.getElem?_replicate, hi]
    · left
      simp [initExecState, List.mem_range, hi]

/-- Every scheduling step preserves the executor invariant. -/
theorem execInv_step (C : Nat) (f : α → β) (tasks : List α) (s s' : ExecState β)
    (hstep : ExecStep C f tasks s s') (hinv : ExecInv f tasks s) :
    ExecInv f tasks s' := by
  obtain ⟨hlen, hslots⟩ := hinv
  cases hstep with
  | dispatch i rest s hp hc =>
    refine ⟨hlen, ?_⟩
    intro j hj
    rcases hslots j hj with h | ⟨h1, h2⟩
    · exact Or.inl h
    · refine Or.inr ⟨h1, ?_⟩
      rcases h2 with hmem | hmem
      · rw [hp] at hmem
        rcases List.mem_cons.mp hmem with rfl | hmem
        · right; simp
        · left; exact hmem
      · right; simp [hmem]
  | complete i t s hi ht =>
    have hilen : i < tasks.length := by
      rcases List.getElem?_eq_some.mp ht with ⟨h, _⟩
      exact h
    refine ⟨by simp [hlen], ?_⟩
    intro j hj
    by_cases hji : j = i
    · subst hji
      left
      rw [List.getElem?_set_self (by omega), ht]
      simp
    · rcases hslots j hj with h | ⟨h1, h2⟩
      · left
        rw [List.getElem?_set_ne (fun hh => hji hh.symm)]
        exact h
      · refine Or.inr ⟨?_, ?_⟩
        · rw [List.getElem?_set_ne (fun hh => hji hh.symm)]
          exact h1
        · rcases h2 with hmem | hmem
          · left; exact hmem
          · right
            simp only [List.mem_filter, bne_iff_ne, ne_eq, decide_eq_true_eq]
            exact ⟨hmem, by simpa using hji⟩

/-- The executor invariant holds in every reachable state. -/
theorem execInv_reach (C : Nat) (f : α → β) (tasks : List α) (s : ExecState β)
    (h : ExecReach C f tasks (initExecState tasks) s) :
    ExecInv f tasks s := by
  induction h with
  | refl => exact execInv_init f tasks
  | tail hab hbc ih => exact execInv_step C f tasks _ _ hbc ih

/-! Helper lemmas about the slot-pool makespan. -/

/-- With a single slot the scheduler is sequential: the slot accumulates the
sum of the delays. -/
theorem foldl_stepSlot_single (ds : List Nat) (s : Nat) :
    ds.foldl stepSlot [s] = [s + sumD ds] := by
  induction ds generalizing s with
  | nil => simp [sumD]
  | cons d ds ih =>
    have h1 : stepSlot [s] d = [s + d] := by
      simp [stepSlot, listMin, replaceFirst]
    simp [h1, ih, sumD]
    omega

/-- Folding `Nat.min` over a list containing 0 (or starting from 0) gives 0. -/
theorem foldlMin_zero (xs : List Nat) (a : Nat) (h : a = 0 ∨ 0 ∈ xs) :
    xs.foldl Nat.min a = 0 := by
  induction xs generalizing a with
  | nil => simpa using h
  | cons x xs ih =>
    rcases h with rfl | hx
    · exact ih _ (Or.inl (by simp [Nat.min_def]))
    · rcases List.mem_cons.mp hx with rfl | hx
      · exact ih _ (Or.inl (by simp [Nat.min_def]))
      · exact ih _ (Or.inr hx)

/-- A slot list containing a free slot has minimum 0. -/
theorem listMin_eq_zero (slots : List Nat) (h : 0 ∈ slots) : listMin slots = 0 := by
  cases slots with
  | nil => simp at h
  | cons x xs =>
    rcases List.mem_cons.mp h with rfl | hx
    · exact foldlMin_zero xs 0 (Or.inl rfl)
    · exact foldlMin_zero xs x (Or.inr hx)

/-- Replacing a free slot by a finish time `v` raises the pool maximum to the
maximum of `v` and the old pool maximum. -/
theorem listMax_replaceFirst_zero (slots : List Nat) (v : Nat) (h : 0 ∈ slots) :
    listMax (replaceFirst slots 0 v) = Nat.max v (listMax slots) := by
  induction slots with
  | nil => simp at h
  | cons x xs ih =>
    by_cases hx : x = 0
    · subst hx
      simp [replaceFirst, listMax]
    · have hx' : 0 ∈ xs := by
        rcases List.mem_cons.mp h with h0 | h0
        · exact absurd h0.symm hx
        · exact h0
      simp [replaceFirst, hx, listMax, ih hx', Nat.max_left_comm]

/-- Replacing a free slot consumes at most one free slot. -/
theorem countZero_replaceFirst_zero (slots : List Nat) (v : Nat) (h : 0 ∈ slots) :
    countZero slots ≤ countZero (replaceFirst slots 0 v) + 1 := by
  induction slots with
  | nil => simp at h
  | cons x xs ih =>
    by_cases hx : x = 0
    · subst hx
      simp [replaceFirst, countZero]
      omega
    · have hx' : 0 ∈ xs := by
        rcases List.mem_cons.mp h with h0 | h0
        · exact absurd h0.symm hx
        · exact h0
      simp [replaceFirst, hx, countZero, ih hx']

/-- A positive free slot count exhibits a free slot. -/
theorem countZero_pos_mem (l : List Nat) (h : 0 < countZero l) : 0 ∈ l := by
  induction l with
  | nil => simp [countZero] at h
  | cons x xs ih =>
    by_cases hx : x = 0
    · simp [hx]
    · simp [countZero, hx] at h
      simp [List.mem_cons]
      exact Or.inr (ih h)

/-- While free slots outnumber the remaining tasks, the final pool maximum is
the maximum of the delays and the starting pool. -/
theorem listMax_foldl_stepSlot (ds : List Nat) (slots : List Nat)
    (h : ds.length ≤ countZero slots) :
    listMax (ds.foldl stepSlot slots) = Nat.max (listMax ds) (listMax slots) := by
  induction ds generalizing slots with
  | nil => simp [listMax]
  | cons d ds ih =>
    have hpos : 0 < countZero slots := by simp at h; omega
    have hmem : 0 ∈ slots := countZero_pos_mem slots hpos
    have hmin : listMin slots = 0 := listMin_eq_zero slots hmem
    have hstep : stepSlot slots d = replaceFirst slots 0 d := by
      simp [stepSlot, hmin]
    have hcount : ds.length ≤ countZero (replaceFirst slots 0 d) := by
      have := countZero_replaceFirst_zero slots d hmem
      simp at h
      omega
    rw [List.foldl_cons, hstep, ih _ hcount, listMax_replaceFirst_zero slots d hmem]
    simp only [listMax]
    exact (Nat.max_left_comm (listMax ds) d (listMax slots)).trans
      (Nat.max_assoc d (listMax ds) (listMax slots)).symm

/-- A pool of `C` slots starts with `C` free slots. -/
theorem countZero_replicate (C : Nat) : countZero (List.replicate C 0) = C := by
  induction C with
  | zero => simp [countZero]
  | succ n ih => simp [List.replicate, countZero, ih]; omega

/-- The starting pool has maximum 0. -/
theorem listMax_replicate_zero (C : Nat) : listMax (List.replicate C 0) = 0 := by
  induction C with
  | zero => simp [listMax]
  | succ n ih => simp [List.replicate, listMax, ih]

/-- Sequential execution: one slot gives the sum of the delays. -/
theorem makespan_one (ds : List Nat) : makespan 1 ds = sumD ds := by
  have h : List.replicate 1 (0 : Nat) = [0] := rfl
  rw [makespan, h, foldl_stepSlot_single]
  simp [listMax]

/-- Fully parallel execution: at least one slot per task gives the maximum
delay. -/
theorem makespan_all (C : Nat) (ds : List Nat) (h : ds.length ≤ C) :
    makespan C ds = listMax ds := by
  rw [makespan, listMax_foldl_stepSlot ds _ (by rw [countZero_replicate]; exact h),
    listMax_replicate_zero]
  simp


/-! Claim theorems. -/

/-- C1 (counterexample): at a concrete failed fetch (transport error
ECONNREFUSED), the callback of `mod_url2mod_data` is never invoked: the task
produces no TaskResult at all, refuting the claim that a per-task fetch
failure yields a Failure result rather than no result. -/
theorem c1_counterexample :
    err_resp_body2mod_data (some "ECONNREFUSED") 0 (Except.error ()) =
      CbEffect.notInvoked := rfl

/-- C1 (amended): the callback of a task is invoked, and then with a success
value, exactly when its own fetch reported no transport error, status 200 and
a parseable body; when the fetch reports a transport error the callback is
never invoked, so the task yields no TaskResult of any kind and the
completion callback of the batch can never receive N results. -/
theorem c1_callback_amended (err : Option String) (statusCode : Int)
    (body : Except Unit JVal) (v : JVal) :
    (err_resp_body2mod_data err statusCode body = CbEffect.invoked v ↔
      err = none ∧ statusCode = 200 ∧ body = Except.ok v) ∧
    (err ≠ none → err_resp_body2mod_data err statusCode body = CbEffect.notInvoked) := by
  constructor
  · constructor
    · intro h
      unfold err_resp_body2mod_data at h
      by_cases hc : err = none ∧ statusCode = 200
      · rw [if_pos hc] at h
        cases body with
        | ok w =>
          refine ⟨hc.1, hc.2, ?_⟩
          injection h with hw
          rw [hw]
        | error e => exact CbEffect.noConfusion h
      · rw [if_neg hc] at h
        exact CbEffect.noConfusion h
    · rintro ⟨h1, h2, h3⟩
      subst h3
      simp [err_resp_body2mod_data, h1, h2]
  · intro hne
    have hc : ¬(err = none ∧ statusCode = 200) := fun hh => hne hh.1
    simp [err_resp_body2mod_data, hc]

/-- C1 (witness): the amended statement instantiated at one succeeding fetch
and one failing fetch. -/
theorem c1_callback_amended_witness :
    err_resp_body2mod_data none 200 (Except.ok (JVal.vobj [])) =
        CbEffect.invoked (JVal.vobj []) ∧
    err_resp_body2mod_data (some "ECONNRESET") 200 (Except.ok (JVal.vobj [])) =
        CbEffect.notInvoked :=
  ⟨(c1_callback_amended none 200 (Except.ok (JVal.vobj [])) (JVal.vobj [])).1.mpr
      ⟨rfl, rfl, rfl⟩,
    (c1_callback_amended (some "ECONNRESET") 200 (Except.ok (JVal.vobj []))
      (JVal.vobj [])).2 (by simp)⟩

/-- C3 (counterexample): at a concrete non-2xx response (status 404, no
transport error, valid body), the callback of `mod_url2mod_data` is never
invoked: the failure does not surface as a FetchError in a TaskResult, and
since the task never completes, no best-effort GroupedResult is produced. -/
theorem c3_counterexample :
    err_resp_body2mod_data none 404 (Except.ok (JVal.vobj [])) =
      CbEffect.notInvoked := rfl

/-- C3 (amended): a fetch that fails (transport error or non-200 status)
leaves the callback of its own task uninvoked â the failure is carried in no
TaskResult, the batch never completes, and no grouped result is produced.
The callback of each task depends only on the outcome of its own fetch, so a
failure does not affect sibling fetches. -/
theorem c3_failure_amended (err : Option String) (statusCode : Int)
    (body : Except Unit JVal) (h : err ≠ none ∨ statusCode ≠ 200) :
    err_resp_body2mod_data err statusCode body = CbEffect.notInvoked := by
  have hc : ¬(err = none ∧ statusCode = 200) := by
    rintro ⟨h1, h2⟩
    rcases h with h | h
    · exact h h1
    · exact h h2
  simp [err_resp_body2mod_data, hc]

/-- C3 (witness): the amended statement instantiated at a concrete 404
response. -/
theorem c3_failure_amended_witness :
    err_resp_body2mod_data none 404 (Except.ok (JVal.varr [])) =
      CbEffect.notInvoked :=
  c3_failure_amended none 404 (Except.ok (JVal.varr [])) (Or.inr (by decide))

/-- C4 (counterexample): on the record `{}` (an object with no fields, a
shape the claim covers), the module-name extraction
`name_regex.exec(mod_data.source)[1]` throws outside the try block and the
transformer propagates the exception to its caller instead of producing the
unknown sentinel. -/
theorem c4_counterexample :
    mod_data2modname_stability (JVal.vobj []) = Except.error () := rfl

/-- C4 (amended): only the stability extraction is protected: whenever the
module-name extraction (which runs before the try block) succeeds, the
transformer returns normally, and an exception thrown anywhere inside the
try block is caught and converted into the undefined (unknown) sentinel; an
exception in the name extraction itself propagates (see the
counterexample). -/
theorem c4_catch_amended (d src : JVal) (nm : String)
    (h1 : getField d "source" = Except.ok src)
    (h2 : execName (jsToString src).toList = some nm) :
    ∃ ms, mod_data2modname_stability d = Except.ok ms ∧ ms.modname = nm ∧
      (stability_try d nm = Except.error () → ms.stability = JVal.vundefined) := by
  have h2' : execName (jsToString src).data = some nm := h2
  cases hs : stability_try d nm with
  | ok v =>
    refine ⟨⟨nm, v⟩, ?_, rfl, ?_⟩
    · simp [mod_data2modname_stability, h1, h2', hs]
    · intro he
      exact Except.noConfusion he
  | error e =>
    refine ⟨⟨nm, JVal.vundefined⟩, ?_, rfl, fun _ => rfl⟩
    simp [mod_data2modname_stability, h1, h2', hs]

/-- C4 (witness): on the crypto record without a modules field the try block
throws (indexing into undefined), the exception is caught, and the stability
becomes the undefined sentinel. -/
theorem c4_catch_amended_witness :
    ∃ ms, mod_data2modname_stability
        (JVal.vobj [("source", JVal.vstr "doc/api/crypto.markdown")]) =
          Except.ok ms ∧
      ms.modname = "crypto" ∧ ms.stability = JVal.vundefined := by
  obtain ⟨ms, hok, hnm, himp⟩ :=
    c4_catch_amended (JVal.vobj [("source", JVal.vstr "doc/api/crypto.markdown")])
      (JVal.vstr "doc/api/crypto.markdown") "crypto" rfl rfl
  exact ⟨ms, hok, hnm, himp rfl⟩

/-- C5 (counterexample): the literal scenario record `{modules:[{stability:3}]}`
has no source field, so the transformer throws at the module-name extraction
instead of yielding stability 3. -/
theorem c5_counterexample :
    mod_data2modname_stability
        (JVal.vobj [("modules", JVal.varr [JVal.vobj [("stability", JVal.vnum 3)]])]) =
      Except.error () := rfl

/-- C5 (amended): for records that also carry a source field matching the
module-name pattern, the resolution order is as claimed â the crypto
override first (even against an explicit stability field), then the
top-level stability field (even against a modules field), then miscs, then
modules, then globals, with the undefined sentinel when no rule matches:
the modules record yields 3, the globals record yields 5, the record with
none of the recognized fields yields the sentinel. -/
theorem c5_priority_amended :
    mod_data2modname_stability
        (JVal.vobj [("source", JVal.vstr "doc/api/fs.markdown"),
                    ("modules", JVal.varr [JVal.vobj [("stability", JVal.vnum 3)]])]) =
      Except.ok ⟨"fs", JVal.vnum 3⟩ ∧
    mod_data2modname_stability
        (JVal.vobj [("source", JVal.vstr "doc/api/fs.markdown"),
                    ("globals", JVal.varr [JVal.vobj [("stability", JVal.vnum 5)]])]) =
      Except.ok ⟨"fs", JVal.vnum 5⟩ ∧
    mod_data2modname_stability
        (JVal.vobj [("source", JVal.vstr "doc/api/fs.markdown")]) =
      Except.ok ⟨"fs", JVal.vundefined⟩ ∧
    mod_data2modname_stability
        (JVal.vobj [("source", JVal.vstr "doc/api/fs.markdown"),
                    ("stability", JVal.vnum 7),
                    ("modules", JVal.varr [JVal.vobj [("stability", JVal.vnum 3)]])]) =
      Except.ok ⟨"fs", JVal.vnum 7⟩ ∧
    mod_data2modname_stability
        (JVal.vobj [("source", JVal.vstr "doc/api/crypto.markdown"),
                    ("stability", JVal.vnum 9),
                    ("modules", JVal.varr
                      [JVal.vobj [("desc", JVal.vstr "Stability: 2 - Unstable"),
                                  ("stability", JVal.vnum 7)]])]) =
      Except.ok ⟨"crypto", JVal.vnum 2⟩ :=
  ⟨rfl, rfl, rfl, rfl, rfl⟩

/-- C6: the aggregator groups records by classification key, appends names
within each group in input order (shown by the full characterisation of each
group as the ordered filter of the input), keeps unknown-keyed records as
their own group, and on the concrete scenario yields
`{3:["fs","net"], 5:["vm"]}`. -/
theorem c6_grouping :
    (∀ (l : List ModnameStability) (k : String),
      lookupGroup (group_modname_stabilities l) k =
        (l.filter (fun ms => jsToString ms.stability == k)).map (fun ms => ms.modname)) ∧
    group_modname_stabilities
        [⟨"fs", JVal.vnum 3⟩, ⟨"net", JVal.vnum 3⟩, ⟨"vm", JVal.vnum 5⟩] =
      [("3", ["fs", "net"]), ("5", ["vm"])] ∧
    group_modname_stabilities [⟨"vm", JVal.vundefined⟩] = [("undefined", ["vm"])] :=
  ⟨lookupGroup_group, rfl, rfl⟩

/-- C7: the transform-and-aggregate stage is deterministic â two runs of
`mod_datas2stability_to_names` on identical input sequences produce identical
grouped results (keys, membership and in-group order included, since the
results are equal as insertion-ordered association lists). -/
theorem c7_deterministic (l₁ l₂ : List JVal) (h : l₁ = l₂) :
    mod_datas2stability_to_names l₁ = mod_datas2stability_to_names l₂ := by
  rw [h]

/-- C7 (witness): two runs on the same concrete one-record input agree, and
the common value is the expected grouped result. -/
theorem c7_deterministic_witness :
    mod_datas2stability_to_names
        [JVal.vobj [("source", JVal.vstr "doc/api/fs.markdown"),
                    ("modules", JVal.varr [JVal.vobj [("stability", JVal.vnum 3)]])]] =
      mod_datas2stability_to_names
        [JVal.vobj [("source", JVal.vstr "doc/api/fs.markdown"),
                    ("modules", JVal.varr [JVal.vobj [("stability", JVal.vnum 3)]])]] ∧
    mod_datas2stability_to_names
        [JVal.vobj [("source", JVal.vstr "doc/api/fs.markdown"),
                    ("modules", JVal.varr [JVal.vobj [("stability", JVal.vnum 3)]])]] =
      Except.ok [("3", ["fs"])] :=
  ⟨c7_deterministic _ _ rfl, rfl⟩

/-- C2: in the executor model, every terminal state reachable from the
initial state under any interleaving of dispatches and completions has its
results buffer fully ordered by submission index â the result at position i
is the result of task i, whatever the completion order was. -/
theorem c2_ordered (C : Nat) (f : α → β) (tasks : List α) (s : ExecState β)
    (_hC : 1 ≤ C) (_hCN : C ≤ tasks.length)
    (hreach : ExecReach C f tasks (initExecState tasks) s)
    (hpend : s.pending = []) (hinfl : s.inflight = []) :
    s.results.length = tasks.length ∧
    ∀ i, i < tasks.length → s.results[i]? = some (tasks[i]?.map f) := by
  obtain ⟨hlen, hslots⟩ := execInv_reach C f tasks s hreach
  refine ⟨hlen, fun i hi => ?_⟩
  rcases hslots i hi with h | ⟨h1, h2⟩
  · exact h
  · rcases h2 with hm | hm
    · rw [hpend] at hm
      cases hm
    · rw [hinfl] at hm
      cases hm

/-- C2 (witness): a concrete two-task run with C = 2 in which task 1
completes before task 0; the final buffer is nevertheless ordered by
submission index. -/
theorem c2_ordered_witness :
    (⟨[], [], [some 30, some 40]⟩ : ExecState Nat).results[0]? = some (some 30) ∧
    (⟨[], [], [some 30, some 40]⟩ : ExecState Nat).results[1]? = some (some 40) := by
  have st1 : ExecStep 2 (fun x => x * 10) [3, 4] (initExecState [3, 4])
      ⟨[1], [0], [none, none]⟩ :=
    ExecStep.dispatch 0 [1] (initExecState [3, 4]) (by decide) (by decide)
  have st2 : ExecStep 2 (fun x => x * 10) [3, 4] ⟨[1], [0], [none, none]⟩
      ⟨[], [0, 1], [none, none]⟩ :=
    ExecStep.dispatch 1 [] ⟨[1], [0], [none, none]⟩ rfl (by decide)
  have st3 : ExecStep 2 (fun x => x * 10) [3, 4] ⟨[], [0, 1], [none, none]⟩
      ⟨[], [0], [none, some 40]⟩ :=
    ExecStep.complete 1 4 ⟨[], [0, 1], [none, none]⟩ (by decide) rfl
  have st4 : ExecStep 2 (fun x => x * 10) [3, 4] ⟨[], [0], [none, some 40]⟩
      ⟨[], [], [some 30, some 40]⟩ :=
    ExecStep.complete 0 3 ⟨[], [0], [none, some 40]⟩ (by decide) rfl
  have hreach : ExecReach 2 (fun x => x * 10) [3, 4] (initExecState [3, 4])
      ⟨[], [], [some 30, some 40]⟩ :=
    Relation.ReflTransGen.tail (Relation.ReflTransGen.tail (Relation.ReflTransGen.tail
      (Relation.ReflTransGen.tail Relation.ReflTransGen.refl st1) st2) st3) st4
  have h := c2_ordered 2 (fun x => x * 10) [3, 4] ⟨[], [], [some 30, some 40]⟩
    (by decide) (by decide) hreach rfl rfl
  exact ⟨h.2 0 (by decide), h.2 1 (by decide)⟩

/-- C8: invoking the executor with concurrency ceiling 0 fails with
InvalidConfig; the outcome is the same for every task list (so no task was
dispatched) and is an error, never a partial result. -/
theorem c8_invalid_config (f : α → β) (tasks : List α) :
    runBounded 0 f tasks = Except.error ExecError.invalidConfig ∧
    runBounded 0 f tasks = runBounded 0 f [] :=
  ⟨rfl, rfl⟩

/-- C9: with one slot the total wall time is the sum of the per-task delays
(strictly sequential); with at least one slot per task it is the maximum
delay (fully parallel); and for the concrete scenario of 5 tasks with delays
[300,100,200,50,400] and C = 3 the total wall time is below 650 and at least
400. -/
theorem c9_timing :
    (∀ ds : List Nat, makespan 1 ds = sumD ds) ∧
    (∀ (C : Nat) (ds : List Nat), ds.length ≤ C → makespan C ds = listMax ds) ∧
    makespan 3 [300, 100, 200, 50, 400] < 650 ∧
    400 ≤ makespan 3 [300, 100, 200, 50, 400] :=
  ⟨makespan_one, makespan_all, by decide, by decide⟩

/-- C9 (witness): the parallel bound instantiated at 5 slots for the 5
concrete delays, and the sequential bound at the same delays. -/
theorem c9_timing_witness :
    makespan 5 [300, 100, 200, 50, 400] = 400 ∧
    makespan 1 [300, 100, 200, 50, 400] = 1050 := by
  constructor
  · have h := c9_timing.2.1 5 [300, 100, 200, 50, 400] (by decide)
    rw [h]
    decide
  · have h := c9_timing.1 [300, 100, 200, 50, 400]
    rw [h]
    decide

/-- C10: the aggregator conserves records â the total number of stored names
equals the number of input records, and every name occurs in the grouped
result exactly as often as it occurs among the input records. -/
theorem c10_conservation (l : List ModnameStability) :
    totalNames (group_modname_stabilities l) = l.length ∧
    ∀ s : String, countNames s (group_modname_stabilities l) =
      countOcc s (l.map (fun ms => ms.modname)) := by
  constructor
  · have h := totalNames_foldl l []
    simpa [group_modname_stabilities, totalNames] using h
  · intro s
    have h := countNames_foldl s l []
    simpa [group_modname_stabilities, countNames] using h

end NodeMods
